import Mathlib

/-!
Verification development for the coupled-oscillator locomotor controller
(CPG network + turning modulation) configured and driven by the
neuromechfly-workshop notebooks.

The fly-following notebook quotes the turning model of
`flygym.examples.locomotion.HybridTurningFly` verbatim:

  amps = np.repeat(np.abs(action[:, np.newaxis]), 3, axis=1).ravel()
  freqs = self.intrinsic_freqs.copy()
  freqs[:3] *= 1 if action[0] > 0 else -1
  freqs[3:] *= 1 if action[1] > 0 else -1
  self.cpg_network.intrinsic_amps = amps
  self.cpg_network.intrinsic_freqs = freqs

together with the oscillator ODEs

  d theta_i / dt = 2 pi nu_i + sum_j r_j w_ij sin(theta_j - theta_i - phi_ij)
  d r_i / dt     = alpha_i (R_i - r_i)

We embed the six-oscillator state, the turning modulation (from the quoted
code), and the CPG integration step and reset (modelled from the spec, since
`CPGNetwork` itself lives in the external flygym library).
-/

/-- State of the six leg oscillators: a phase and a magnitude (amplitude)
per oscillator, indexed 0..5 (indices 0-2 are the left side, 3-5 the right,
as in the quoted slicing `freqs[:3]` / `freqs[3:]`). -/
structure OscillatorState where
  phases : Fin 6 → ℝ
  magnitudes : Fin 6 → ℝ

/-- Construction-time configuration of the CPG network, with the field names
of the `CPGNetwork(...)` constructor call quoted in the notebook:
timestep, baseline intrinsic frequencies and amplitudes, coupling weights,
phase biases and convergence coefficients. -/
structure CPGConfig where
  timestep : ℝ
  intrinsic_freqs : Fin 6 → ℝ
  intrinsic_amps : Fin 6 → ℝ
  coupling_weights : Fin 6 → Fin 6 → ℝ
  phase_biases : Fin 6 → Fin 6 → ℝ
  convergence_coefs : Fin 6 → ℝ

/-- Mutable state of the CPG network object: the currently written intrinsic
frequency and amplitude vectors (overwritten by the turning modulator before
every integration step) and the oscillator state. -/
structure CPGNetworkState where
  intrinsic_freqs : Fin 6 → ℝ
  intrinsic_amps : Fin 6 → ℝ
  osc : OscillatorState

/-- Turning modulation of the intrinsic amplitudes, from the quoted line
`amps = np.repeat(np.abs(action[:, np.newaxis]), 3, axis=1).ravel()`:
each of the three oscillators of a side gets the absolute value of that
side's steering signal. -/
noncomputable def hybridTurningAmps (action : ℝ × ℝ) : Fin 6 → ℝ :=
  fun i => |if i.val < 3 then action.1 else action.2|

/-- Turning modulation of the intrinsic frequencies, from the quoted lines
`freqs = self.intrinsic_freqs.copy()`,
`freqs[:3] *= 1 if action[0] > 0 else -1`,
`freqs[3:] *= 1 if action[1] > 0 else -1`:
the baseline frequencies are re-read from the fixed configuration and the
three oscillators of a side are multiplied by the sign factor of that
side's steering signal (strict test `> 0`). -/
noncomputable def hybridTurningFreqs (intrinsic_freqs : Fin 6 → ℝ) (action : ℝ × ℝ) :
    Fin 6 → ℝ :=
  fun i =>
    intrinsic_freqs i * (if (if i.val < 3 then action.1 else action.2) > 0 then 1 else -1)

/-- The turning modulator's override computation as one pure operation
(frequency vector, amplitude vector), as named by the spec. -/
noncomputable def compute_intrinsic_overrides (intrinsic_freqs : Fin 6 → ℝ)
    (action : ℝ × ℝ) : (Fin 6 → ℝ) × (Fin 6 → ℝ) :=
  (hybridTurningFreqs intrinsic_freqs action, hybridTurningAmps action)

/-- Modelled from the spec: phase wrapping into [0, 2*pi) by modular
arithmetic (`CPGNetwork.step` is implemented in the external flygym library;
the spec states that phases are wrapped after each step). -/
noncomputable def wrapPhase (theta : ℝ) : ℝ :=
  theta - ⌊theta / (2 * Real.pi)⌋ * (2 * Real.pi)

/-- Modelled from the spec: one forward-Euler integration step of the
oscillator ODEs quoted in the notebook,
d theta_i/dt = 2 pi nu_i + sum_j r_j w_ij sin(theta_j - theta_i - phi_ij)
and d r_i/dt = alpha_i (R_i - r_i), with phases wrapped into [0, 2*pi) and
magnitudes clamped at 0 afterwards (`CPGNetwork.step` itself lives in the
external flygym library). -/
noncomputable def cpgStep (timestep : ℝ) (freqs amps : Fin 6 → ℝ)
    (w b : Fin 6 → Fin 6 → ℝ) (coefs : Fin 6 → ℝ) (s : OscillatorState) :
    OscillatorState where
  phases := fun i => wrapPhase (s.phases i + timestep *
    (2 * Real.pi * freqs i +
      ∑ j, s.magnitudes j * w i j * Real.sin (s.phases j - s.phases i - b i j)))
  magnitudes := fun i =>
    max 0 (s.magnitudes i + timestep * (coefs i * (amps i - s.magnitudes i)))

/-- One control step of the turning fly: the overrides computed from the
steering command are written into the network (amplitudes and frequencies,
in the order of the quoted snippet), then the network integrates one step
reading exactly those overrides. -/
noncomputable def flyStep (cfg : CPGConfig) (action : ℝ × ℝ)
    (net : CPGNetworkState) : CPGNetworkState where
  intrinsic_freqs := hybridTurningFreqs cfg.intrinsic_freqs action
  intrinsic_amps := hybridTurningAmps action
  osc := cpgStep cfg.timestep (hybridTurningFreqs cfg.intrinsic_freqs action)
    (hybridTurningAmps action) cfg.coupling_weights cfg.phase_biases
    cfg.convergence_coefs net.osc

/-- Run of the controller: step `n` consumes steering command `actions n`. -/
noncomputable def flyRun (cfg : CPGConfig) (init : CPGNetworkState)
    (actions : ℕ → ℝ × ℝ) : ℕ → CPGNetworkState
  | 0 => init
  | n + 1 => flyStep cfg (actions n) (flyRun cfg init actions n)

/-- C1 counterexample: with baseline frequencies 12 and steering command
(0, 1), the left side's value is 0, and the override written for oscillator 0
is the negated baseline -12, not the un-negated baseline 12 the claim
states: `0 > 0` is false, so the `else -1` branch is taken. -/
theorem delta_zero_takes_negative_branch_cex :
    (compute_intrinsic_overrides (fun _ => 12) (0, 1)).1 0 = -12 ∧
    ¬ (compute_intrinsic_overrides (fun _ => 12) (0, 1)).1 0 = 12 := by
  norm_num [compute_intrinsic_overrides, hybridTurningFreqs]

/-- C1 (amended): for a steering command in which a side's value δ equals 0,
the turning modulator sets that side's intrinsic amplitudes to 0 and that
side's intrinsic frequencies to the NEGATED baseline -ν_i: the sign test is
strict `δ > 0`, which 0 fails, so the negative branch is taken. -/
theorem delta_zero_quiescent_negated_freq (ν : Fin 6 → ℝ) (δ : ℝ) :
    (∀ i : Fin 6, i.val < 3 →
      (compute_intrinsic_overrides ν (0, δ)).2 i = 0 ∧
      (compute_intrinsic_overrides ν (0, δ)).1 i = -(ν i)) ∧
    (∀ i : Fin 6, ¬ i.val < 3 →
      (compute_intrinsic_overrides ν (δ, 0)).2 i = 0 ∧
      (compute_intrinsic_overrides ν (δ, 0)).1 i = -(ν i)) := by
  refine ⟨fun i hi => ?_, fun i hi => ?_⟩ <;>
    simp [compute_intrinsic_overrides, hybridTurningAmps, hybridTurningFreqs, hi]

/-- C2 counterexample: with baseline intrinsic amplitudes 2 and steering
command (1, 1), the amplitude written for oscillator 0 is 1 = |1|, not
|1| * 2 as the claim (amplitude = |δ| times the baseline amplitude) states:
the quoted code never reads the baseline amplitudes. -/
theorem amps_ignore_baseline_cex :
    (flyStep
        { timestep := 1e-4, intrinsic_freqs := fun _ => 12,
          intrinsic_amps := fun _ => 2, coupling_weights := fun _ _ => 0,
          phase_biases := fun _ _ => 0, convergence_coefs := fun _ => 20 }
        (1, 1)
        { intrinsic_freqs := fun _ => 12, intrinsic_amps := fun _ => 2,
          osc := { phases := fun _ => 0, magnitudes := fun _ => 0 } }).intrinsic_amps 0
      = 1 ∧
    ¬ ((1 : ℝ) = |(1 : ℝ)| * 2) := by
  norm_num [flyStep, hybridTurningAmps]

/-- C2 (amended): the turning modulator sets each oscillator's intrinsic
amplitude to |δ| itself, where δ is the steering value of the oscillator's
side; the configured baseline intrinsic amplitudes play no role (the written
amplitudes are identical for any two baselines). -/
theorem amps_are_abs_delta (cfg : CPGConfig) (R R' : Fin 6 → ℝ)
    (net : CPGNetworkState) (action : ℝ × ℝ) :
    (∀ i : Fin 6,
      (flyStep { cfg with intrinsic_amps := R } action net).intrinsic_amps i =
        |if i.val < 3 then action.1 else action.2|) ∧
    (flyStep { cfg with intrinsic_amps := R } action net).intrinsic_amps =
      (flyStep { cfg with intrinsic_amps := R' } action net).intrinsic_amps :=
  ⟨fun _ => rfl, rfl⟩

/-- C3: after every control step, the intrinsic frequency vector written into
the network is computed per side — oscillators 0-2 governed by the left
steering value, 3-5 by the right — as ν_i when the side's δ > 0 and -ν_i
otherwise, where ν_i is re-read from the fixed configuration each step: the
written value at step n+1 depends only on the configured baseline and the
n-th command, never on the initial network state or on earlier overrides. -/
theorem freqs_per_side_from_baseline (cfg : CPGConfig) (init : CPGNetworkState)
    (actions : ℕ → ℝ × ℝ) (n : ℕ) (i : Fin 6) :
    (flyRun cfg init actions (n + 1)).intrinsic_freqs i =
      if (if i.val < 3 then (actions n).1 else (actions n).2) > 0
      then cfg.intrinsic_freqs i else -(cfg.intrinsic_freqs i) := by
  by_cases h : (if i.val < 3 then (actions n).1 else (actions n).2) > 0 <;>
    simp [flyRun, flyStep, hybridTurningFreqs, h]

/-- C6 counterexample: with baseline frequencies 12 and the left steering
value 0 replaced by -0 (the same command), both runs write -12 for
oscillator 0, which is not the negation of -12: the claimed sign-flip
reversal fails at δ = 0. -/
theorem sign_flip_at_zero_cex :
    (compute_intrinsic_overrides (fun _ => 12) (-(0 : ℝ), 1)).1 0 = -12 ∧
    (compute_intrinsic_overrides (fun _ => 12) ((0 : ℝ), 1)).1 0 = -12 ∧
    ¬ ((-12 : ℝ) = -(-12 : ℝ)) := by
  norm_num [compute_intrinsic_overrides, hybridTurningFreqs]

/-- C6 (amended): for two runs of compute_intrinsic_overrides identical
except that one side's NONZERO steering value δ is replaced by -δ, the
frequency vector produced for that side's oscillators is the element-wise
negation of the other run's, the other side's frequencies and the whole
amplitude vector being equal (at δ = 0 both runs coincide instead). -/
theorem sign_flip_negates_side_freqs (ν : Fin 6 → ℝ) (δL δR : ℝ) :
    (δL ≠ 0 →
      (∀ i : Fin 6, i.val < 3 →
        (compute_intrinsic_overrides ν (-δL, δR)).1 i =
          -((compute_intrinsic_overrides ν (δL, δR)).1 i)) ∧
      (∀ i : Fin 6, ¬ i.val < 3 →
        (compute_intrinsic_overrides ν (-δL, δR)).1 i =
          (compute_intrinsic_overrides ν (δL, δR)).1 i) ∧
      (compute_intrinsic_overrides ν (-δL, δR)).2 =
        (compute_intrinsic_overrides ν (δL, δR)).2) ∧
    (δR ≠ 0 →
      (∀ i : Fin 6, ¬ i.val < 3 →
        (compute_intrinsic_overrides ν (δL, -δR)).1 i =
          -((compute_intrinsic_overrides ν (δL, δR)).1 i)) ∧
      (∀ i : Fin 6, i.val < 3 →
        (compute_intrinsic_overrides ν (δL, -δR)).1 i =
          (compute_intrinsic_overrides ν (δL, δR)).1 i) ∧
      (compute_intrinsic_overrides ν (δL, -δR)).2 =
        (compute_intrinsic_overrides ν (δL, δR)).2) := by
  constructor
  · intro h
    refine ⟨fun i hi => ?_, fun i hi => ?_, funext fun i => ?_⟩
    · rcases h.lt_or_lt with hneg | hpos
      · simp [compute_intrinsic_overrides, hybridTurningFreqs, hi,
          hneg.not_lt, neg_pos.mpr hneg]
      · simp [compute_intrinsic_overrides, hybridTurningFreqs, hi, hpos,
          (neg_lt_zero.mpr hpos).not_lt]
    · simp [compute_intrinsic_overrides, hybridTurningFreqs, hi]
    · by_cases hi : i.val < 3 <;>
        simp [compute_intrinsic_overrides, hybridTurningAmps, hi, abs_neg]
  · intro h
    refine ⟨fun i hi => ?_, fun i hi => ?_, funext fun i => ?_⟩
    · rcases h.lt_or_lt with hneg | hpos
      · simp [compute_intrinsic_overrides, hybridTurningFreqs, hi,
          hneg.not_lt, neg_pos.mpr hneg]
      · simp [compute_intrinsic_overrides, hybridTurningFreqs, hi, hpos,
          (neg_lt_zero.mpr hpos).not_lt]
    · simp [compute_intrinsic_overrides, hybridTurningFreqs, hi]
    · by_cases hi : i.val < 3 <;>
        simp [compute_intrinsic_overrides, hybridTurningAmps, hi, abs_neg]

/-- C4: after every call to the network's step, every phase lies in
[0, 2*pi) and every magnitude (amplitude) is nonnegative. This holds
starting from an arbitrary prior state, so in particular the invariant is
preserved by step from any state satisfying it: phases are wrapped by
modular arithmetic, magnitudes clamped at 0. -/
theorem step_phase_wrap_amp_nonneg (timestep : ℝ) (freqs amps : Fin 6 → ℝ)
    (w b : Fin 6 → Fin 6 → ℝ) (coefs : Fin 6 → ℝ) (s : OscillatorState)
    (i : Fin 6) :
    (0 ≤ (cpgStep timestep freqs amps w b coefs s).phases i ∧
      (cpgStep timestep freqs amps w b coefs s).phases i < 2 * Real.pi) ∧
    0 ≤ (cpgStep timestep freqs amps w b coefs s).magnitudes i := by
  refine ⟨⟨?_, ?_⟩, ?_⟩
  · show 0 ≤ wrapPhase _
    exact Int.sub_floor_div_mul_nonneg _ Real.two_pi_pos
  · show wrapPhase _ < 2 * Real.pi
    exact Int.sub_floor_div_mul_lt _ Real.two_pi_pos
  · exact le_max_left 0 _

/-- A run of the controller as a trajectory predicate: the trajectory starts
at the given initial network state and every step applies the override-then-
integrate control step to the current steering command. -/
def IsControllerTrajectory (cfg : CPGConfig) (init : CPGNetworkState)
    (actions : ℕ → ℝ × ℝ) (traj : ℕ → CPGNetworkState) : Prop :=
  traj 0 = init ∧ ∀ n, traj (n + 1) = flyStep cfg (actions n) (traj n)

/-- C5: the controller is deterministic. For a fixed configuration, fixed
initial state and fixed sequence of steering commands, any two trajectories
of the controller agree at every step: stepping uses no internal randomness
(the step is a function of configuration, command and current state only). -/
theorem controller_deterministic (cfg : CPGConfig) (init : CPGNetworkState)
    (actions : ℕ → ℝ × ℝ) (traj₁ traj₂ : ℕ → CPGNetworkState)
    (h₁ : IsControllerTrajectory cfg init actions traj₁)
    (h₂ : IsControllerTrajectory cfg init actions traj₂) :
    ∀ n, traj₁ n = traj₂ n := by
  intro n
  induction n with
  | zero => rw [h₁.1, h₂.1]
  | succ k ih => rw [h₁.2 k, h₂.2 k, ih]

/-- A concrete configuration used to instantiate the determinism theorem. -/
noncomputable def cfgDemo : CPGConfig :=
  { timestep := 1e-4, intrinsic_freqs := fun _ => 12,
    intrinsic_amps := fun _ => 1, coupling_weights := fun _ _ => 0,
    phase_biases := fun _ _ => 0, convergence_coefs := fun _ => 20 }

/-- A concrete initial network state used to instantiate the determinism
theorem. -/
noncomputable def netDemo : CPGNetworkState :=
  { intrinsic_freqs := fun _ => 12, intrinsic_amps := fun _ => 1,
    osc := { phases := fun _ => 0, magnitudes := fun _ => 0 } }

/-- C5 witness: the determinism theorem applied to a concrete configuration,
initial state and command sequence, with both trajectories instantiated by
the controller run and the trajectory hypotheses discharged by rfl. -/
theorem controller_deterministic_witness :
    flyRun cfgDemo netDemo (fun _ => (1, 1)) 3 =
      flyRun cfgDemo netDemo (fun _ => (1, 1)) 3 :=
  controller_deterministic cfgDemo netDemo (fun _ => (1, 1))
    (flyRun cfgDemo netDemo (fun _ => (1, 1)))
    (flyRun cfgDemo netDemo (fun _ => (1, 1)))
    ⟨rfl, fun _ => rfl⟩ ⟨rfl, fun _ => rfl⟩ 3

/-- Error raised by the CPG network on invalid reset or setter input. -/
inductive CPGError where
  | invalidState

/-- Modelled from the spec: `reset(initial_phases, initial_amplitudes)` sets
the oscillator state explicitly and fails with InvalidStateError when a
supplied vector has length different from N = 6 or a supplied amplitude is
negative (`CPGNetwork.reset` itself lives in the external flygym library). -/
noncomputable def resetNetwork (initial_phases initial_magnitudes : List ℝ) :
    Except CPGError OscillatorState :=
  if initial_phases.length = 6 ∧ initial_magnitudes.length = 6 ∧
      ∀ a ∈ initial_magnitudes, 0 ≤ a then
    Except.ok { phases := fun i => initial_phases.getD i.val 0,
                magnitudes := fun i => initial_magnitudes.getD i.val 0 }
  else Except.error CPGError.invalidState

/-- The oscillator state after a reset call starting from prior state s:
the supplied state on success; on InvalidStateError the prior state is left
unchanged (the error is raised before any mutation). -/
noncomputable def applyReset (s : OscillatorState) (ph am : List ℝ) :
    OscillatorState :=
  match resetNetwork ph am with
  | Except.ok s₁ => s₁
  | Except.error _ => s

/-- C7: reset raises InvalidStateError exactly when a supplied vector has
length different from 6 or some supplied amplitude is negative; on such an
error the prior oscillator state is unchanged; on valid input the state is
exactly the supplied phases and amplitudes. -/
theorem reset_validation (s : OscillatorState) (ph am : List ℝ) :
    (resetNetwork ph am = Except.error CPGError.invalidState ↔
      (ph.length ≠ 6 ∨ am.length ≠ 6 ∨ ∃ a ∈ am, a < 0)) ∧
    (resetNetwork ph am = Except.error CPGError.invalidState →
      applyReset s ph am = s) ∧
    (∀ s₁, resetNetwork ph am = Except.ok s₁ →
      ∀ i : Fin 6, s₁.phases i = ph.getD i.val 0 ∧
        s₁.magnitudes i = am.getD i.val 0) := by
  by_cases h : ph.length = 6 ∧ am.length = 6 ∧ ∀ a ∈ am, 0 ≤ a
  · refine ⟨⟨fun habs => ?_, fun habs => ?_⟩, fun habs => ?_, fun s₁ hok => ?_⟩
    · rw [resetNetwork, if_pos h] at habs
      exact Except.noConfusion habs
    · rcases habs with h1 | h1 | ⟨a, ha, hneg⟩
      · exact absurd h.1 h1
      · exact absurd h.2.1 h1
      · exact absurd (h.2.2 a ha) (not_le.mpr hneg)
    · rw [resetNetwork, if_pos h] at habs
      exact Except.noConfusion habs
    · rw [resetNetwork, if_pos h] at hok
      cases hok
      exact fun i => ⟨rfl, rfl⟩
  · refine ⟨⟨fun _ => ?_, fun _ => ?_⟩, fun _ => ?_, fun s₁ hok => ?_⟩
    · by_cases h1 : ph.length = 6
      · by_cases h2 : am.length = 6
        · refine Or.inr (Or.inr ?_)
          push_neg at h
          exact h h1 h2
        · exact Or.inr (Or.inl h2)
      · exact Or.inl h1
    · rw [resetNetwork, if_neg h]
    · rw [applyReset]
      rw [resetNetwork, if_neg h]
    · rw [resetNetwork, if_neg h] at hok
      exact Except.noConfusion hok

/-- The comparison symbol rendered in the fly-following notebook's
ommatidia-comparison figure title, from
`'<>'[int(ommatidia_l > ommatidia_l)]`: a two-element string indexed by the
integer value of the comparison of the left count with itself. -/
def ommatidiaCmpSymbol (ommatidia_l ommatidia_r : ℕ) : String :=
  ["<", ">"].getD (if ommatidia_l > ommatidia_l then 1 else 0) ""

/-- The turn label rendered in the same figure title, from
`'RL'[int(ommatidia_l > ommatidia_l)]`. -/
def ommatidiaTurnLabel (ommatidia_l ommatidia_r : ℕ) : String :=
  ["R", "L"].getD (if ommatidia_l > ommatidia_l then 1 else 0) ""

/-- C9: the comparison driving the displayed turn decision is
`ommatidia_l > ommatidia_l` — the left count compared with itself — which is
false for every pair of retina readings, so the figure title renders the
symbol "<" and the turn label "R" regardless of the actual counts. -/
theorem suptitle_always_turn_right (ommatidia_l ommatidia_r : ℕ) :
    ¬ (ommatidia_l > ommatidia_l) ∧
    ommatidiaCmpSymbol ommatidia_l ommatidia_r = "<" ∧
    ommatidiaTurnLabel ommatidia_l ommatidia_r = "R" := by
  refine ⟨lt_irrefl _, ?_, ?_⟩ <;>
    simp [ommatidiaCmpSymbol, ommatidiaTurnLabel]

/-- Python's float modulo for a positive divisor, as used by
`(t - 0.2) % 0.8` in the zig-zag demo: the remainder x - m * floor(x / m),
which lies in [0, m) for m > 0. -/
def pyMod (x m : ℚ) : ℚ := x - m * ⌊x / m⌋

/-- The time axis of the zig-zag demo, `t = np.arange(0, 1.2, timestep)`
with timestep 1e-4: sample k is k * 1e-4. -/
def tArr (k : ℕ) : ℚ := (k : ℚ) * 1e-4

/-- Number of samples of `np.arange(0, 1.2, 1e-4)`. -/
def nSamples : ℕ := 12000

/-- The zig-zag demo's right descending signal, from
`right_descending_signal = ((t - 0.2) % 0.8 > 0.4) * 1.2 + 0.2`
(a boolean array scaled to 1.2 and offset by 0.2). -/
def right_descending_signal (k : ℕ) : ℚ :=
  (if pyMod (tArr k - 0.2) 0.8 > 0.4 then 1 else 0) * 1.2 + 0.2

/-- The zig-zag demo's left descending signal, from
`left_descending_signal = 1.6 - right_descending_signal`. -/
def left_descending_signal (k : ℕ) : ℚ :=
  1.6 - right_descending_signal k

/-- C10: at every time sample of the zig-zag demo, the left and right
descending signals sum to 1.6, each takes only the values 0.2 or 1.4, both
are strictly positive, and consequently the turning modulator's
negative-frequency (backward-stepping) branch is never exercised: the
frequency overrides equal the baseline frequencies unchanged. -/
theorem zigzag_signals (k : Fin nSamples) (ν : Fin 6 → ℝ) :
    left_descending_signal k + right_descending_signal k = 1.6 ∧
    (left_descending_signal k = 0.2 ∨ left_descending_signal k = 1.4) ∧
    (right_descending_signal k = 0.2 ∨ right_descending_signal k = 1.4) ∧
    0 < left_descending_signal k ∧ 0 < right_descending_signal k ∧
    hybridTurningFreqs ν
      ((left_descending_signal k : ℝ), (right_descending_signal k : ℝ)) = ν := by
  have hval : right_descending_signal k = 1.4 ∨ right_descending_signal k = 0.2 := by
    unfold right_descending_signal
    split_ifs <;> norm_num
  have hleft : left_descending_signal k = 1.6 - right_descending_signal k := rfl
  have hsum : left_descending_signal k + right_descending_signal k = 1.6 := by
    rw [hleft]; ring
  have hrpos : 0 < right_descending_signal k := by
    rcases hval with h | h <;> rw [h] <;> norm_num
  have hlpos : 0 < left_descending_signal k := by
    rcases hval with h | h <;> rw [hleft, h] <;> norm_num
  refine ⟨hsum, ?_, hval.symm, hlpos, hrpos, ?_⟩
  · rcases hval with h | h <;> rw [hleft, h] <;> norm_num
  · funext i
    have h1 : ((left_descending_signal k : ℝ)) > 0 := by exact_mod_cast hlpos
    have h2 : ((right_descending_signal k : ℝ)) > 0 := by exact_mod_cast hrpos
    by_cases hi : i.val < 3 <;>
      simp [hybridTurningFreqs, hi, h1, h2]

/-- The magnitude written by one control step: forward Euler on
d r_i/dt = alpha_i (R_i - r_i) with the turning-modulated target amplitude,
clamped at 0. -/
theorem flyStep_magnitude (cfg : CPGConfig) (action : ℝ × ℝ)
    (net : CPGNetworkState) (i : Fin 6) :
    (flyStep cfg action net).osc.magnitudes i =
      max 0 (net.osc.magnitudes i + cfg.timestep * (cfg.convergence_coefs i *
        (hybridTurningAmps action i - net.osc.magnitudes i))) := rfl

/-- Geometric decay bound for the convergence scenario: 0.998 to the 5000th
power is below 0.05 (ten time constants elapsed). -/
theorem geo_decay_5000 : (0.998 : ℝ) ^ 5000 ≤ 0.05 := by
  have hb : (2 : ℝ) ≤ 1.002 ^ 500 := by
    have h := one_add_mul_le_pow (a := (0.002 : ℝ)) (by norm_num) 500
    norm_num at h
    linarith
  have hq : (0.998 : ℝ) ^ 500 * 1.002 ^ 500 ≤ 1 := by
    rw [← mul_pow]
    calc ((0.998 : ℝ) * 1.002) ^ 500 ≤ 1 ^ 500 :=
          pow_le_pow_left₀ (by norm_num) (by norm_num) 500
      _ = 1 := one_pow 500
  have hqn : (0 : ℝ) ≤ (0.998 : ℝ) ^ 500 := pow_nonneg (by norm_num) 500
  have h500 : (0.998 : ℝ) ^ 500 ≤ 1 / 2 := by nlinarith
  have hsplit : (0.998 : ℝ) ^ 5000 = ((0.998 : ℝ) ^ 500) ^ 10 := by
    rw [← pow_mul]
  rw [hsplit]
  calc ((0.998 : ℝ) ^ 500) ^ 10 ≤ (1 / 2 : ℝ) ^ 10 :=
        pow_le_pow_left₀ hqn h500 10
    _ ≤ 0.05 := by norm_num

/-- C8: with baseline intrinsic amplitudes 1, convergence rates 20 per
second, timestep 1e-4 s and constant steering command (1, 1) applied before
each of 5000 consecutive steps, every oscillator magnitude after the 5000th
step is at least 0.95 of the target amplitude 1, from any initial state with
nonnegative magnitudes (the baseline frequencies and the coupling and bias
matrices are arbitrary: the amplitude equation does not involve them). -/
theorem convergence_scenario (ν : Fin 6 → ℝ) (w b : Fin 6 → Fin 6 → ℝ)
    (init : CPGNetworkState) (h0 : ∀ i, 0 ≤ init.osc.magnitudes i)
    (i : Fin 6) :
    0.95 ≤ (flyRun
        { timestep := 1e-4, intrinsic_freqs := ν, intrinsic_amps := fun _ => 1,
          coupling_weights := w, phase_biases := b,
          convergence_coefs := fun _ => 20 }
        init (fun _ => (1, 1)) 5000).osc.magnitudes i := by
  set cfg : CPGConfig :=
    { timestep := 1e-4, intrinsic_freqs := ν, intrinsic_amps := fun _ => 1,
      coupling_weights := w, phase_biases := b,
      convergence_coefs := fun _ => 20 } with hcfg
  have hamp : hybridTurningAmps (1, 1) i = 1 := by
    by_cases hi : i.val < 3 <;> simp [hybridTurningAmps, hi]
  have key : ∀ n, 1 - (0.998 : ℝ) ^ n ≤
      (flyRun cfg init (fun _ => (1, 1)) n).osc.magnitudes i := by
    intro n
    induction n with
    | zero =>
      simpa [flyRun] using h0 i
    | succ k ih =>
      have hstep : (flyRun cfg init (fun _ => (1, 1)) (k + 1)).osc.magnitudes i =
          max 0 ((flyRun cfg init (fun _ => (1, 1)) k).osc.magnitudes i +
            cfg.timestep * (cfg.convergence_coefs i *
              (hybridTurningAmps (1, 1) i -
                (flyRun cfg init (fun _ => (1, 1)) k).osc.magnitudes i))) := rfl
      set m := (flyRun cfg init (fun _ => (1, 1)) k).osc.magnitudes i with hm
      rw [hstep, hamp]
      have hts : cfg.timestep = 1e-4 := rfl
      have hcoef : cfg.convergence_coefs i = 20 := rfl
      rw [hts, hcoef]
      have hle : m + 1e-4 * (20 * (1 - m)) ≤
          max 0 (m + 1e-4 * (20 * (1 - m))) := le_max_right _ _
      have hgoal : 1 - (0.998 : ℝ) ^ (k + 1) ≤ m + 1e-4 * (20 * (1 - m)) := by
        have hpow : (0.998 : ℝ) ^ (k + 1) = 0.998 * (0.998 : ℝ) ^ k := by
          rw [pow_succ]; ring
        nlinarith [ih]
      linarith
  have h5000 := key 5000
  have hdecay := geo_decay_5000
  linarith

/-- C8 witness: the convergence scenario applied to a concrete
configuration and the all-zero initial state, whose magnitudes are
trivially nonnegative. -/
theorem convergence_scenario_witness :
    0.95 ≤ (flyRun
        { timestep := 1e-4, intrinsic_freqs := fun _ => 12,
          intrinsic_amps := fun _ => 1, coupling_weights := fun _ _ => 0,
          phase_biases := fun _ _ => 0, convergence_coefs := fun _ => 20 }
        { intrinsic_freqs := fun _ => 12, intrinsic_amps := fun _ => 1,
          osc := { phases := fun _ => 0, magnitudes := fun _ => 0 } }
        (fun _ => (1, 1)) 5000).osc.magnitudes 0 :=
  convergence_scenario (fun _ => 12) (fun _ _ => 0) (fun _ _ => 0)
    { intrinsic_freqs := fun _ => 12, intrinsic_amps := fun _ => 1,
      osc := { phases := fun _ => 0, magnitudes := fun _ => 0 } }
    (fun _ => le_refl 0) 0
